import Mathlib

/-!
Verification development for the libredraw polygon editing engine.

Coordinates are embedded as exact rationals (ℚ). At every concrete input used
below, the source's IEEE-754 double arithmetic is exact (small integers and
halves), so the rational embedding agrees with the source semantics there.
Pixel-distance comparisons `sqrt(dx²+dy²) ≤ t` are embedded as the equivalent
`dx²+dy² ≤ t²` to stay executable.

JavaScript `Map` state is embedded as an insertion-ordered association list:
`set` replaces in place when the key is present and appends otherwise,
`delete` removes the (unique) entry.
-/

namespace LibreDraw

/-- A geographic coordinate pair, from src/types (Position = [number, number]). -/
abbrev Pos := ℚ × ℚ

/-- Absolute value written with a plain conditional so that concrete
evaluation stays kernel-friendly. -/
def qabs (q : ℚ) : ℚ := if q < 0 then -q else q

/-- Minimum of two rationals (Math.min). -/
def qmin (a b : ℚ) : ℚ := if a ≤ b then a else b

/-- Maximum of two rationals (Math.max). -/
def qmax (a b : ℚ) : ℚ := if a ≤ b then b else a

/-- The named epsilon of src/validation/intersection.ts (1e-10). -/
def eps : ℚ := 1 / 10000000000

/-- Orientation of the triplet (p, q, r): 0 collinear, 1 clockwise,
2 counter-clockwise.  From src/validation/intersection.ts `orientation`. -/
def orientation (p q r : Pos) : ℕ :=
  let val := (q.2 - p.2) * (r.1 - q.1) - (q.1 - p.1) * (r.2 - q.2)
  if qabs val < eps then 0 else if 0 < val then 1 else 2

/-- Whether q lies on the bounding box of segment pr (used when collinear).
From src/validation/intersection.ts `onSegment`. -/
def onSegment (p q r : Pos) : Bool :=
  decide (q.1 ≤ qmax p.1 r.1) && decide (qmin p.1 r.1 ≤ q.1) &&
  decide (q.2 ≤ qmax p.2 r.2) && decide (qmin p.2 r.2 ≤ q.2)

/-- Approximate equality of positions with ε = 1e-10.
From src/validation/intersection.ts `posEqual`. -/
def posEqual (a b : Pos) : Bool :=
  decide (qabs (a.1 - b.1) < eps) && decide (qabs (a.2 - b.2) < eps)

/-- True iff segments (p1,p2) and (p3,p4) truly intersect; segments sharing an
endpoint never count.  From src/validation/intersection.ts `segmentsIntersect`. -/
def segmentsIntersect (p1 p2 p3 p4 : Pos) : Bool :=
  if posEqual p1 p3 || posEqual p1 p4 || posEqual p2 p3 || posEqual p2 p4 then
    false
  else
    let o1 := orientation p1 p2 p3
    let o2 := orientation p1 p2 p4
    let o3 := orientation p3 p4 p1
    let o4 := orientation p3 p4 p2
    if o1 ≠ o2 ∧ o3 ≠ o4 then true
    else if o1 = 0 ∧ onSegment p1 p3 p2 then true
    else if o2 = 0 ∧ onSegment p1 p4 p2 then true
    else if o3 = 0 ∧ onSegment p3 p1 p4 then true
    else if o4 = 0 ∧ onSegment p3 p2 p4 then true
    else false

/-- Default position used only to totalize list indexing; every index taken
below is in range, mirroring the source's in-bounds loop indices. -/
def pos0 : Pos := (0, 0)

/-- Whether a closed ring (first = last) has a self-intersection between any
two non-adjacent edges.  From src/validation/intersection.ts
`hasRingSelfIntersection`. -/
def hasRingSelfIntersection (ring : List Pos) : Bool :=
  let n := ring.length - 1
  if n < 3 then false
  else
    (List.range n).any fun i =>
      (List.range n).any fun j =>
        decide (i + 2 ≤ j) &&
        !(decide (i = 0) && decide (j = n - 1)) &&
        segmentsIntersect (ring.getD i pos0) (ring.getD (i + 1) pos0)
          (ring.getD j pos0) (ring.getD (j + 1) pos0)

/-- Whether appending `newVertex` to the open vertex chain would make the new
trailing edge cross an existing edge.  From src/validation/intersection.ts
`wouldNewVertexCauseIntersection`. -/
def wouldNewVertexCauseIntersection (vertices : List Pos) (newVertex : Pos) : Bool :=
  if vertices.length < 2 then false
  else
    let lastVertex := vertices.getD (vertices.length - 1) pos0
    (List.range (vertices.length - 2)).any fun i =>
      segmentsIntersect lastVertex newVertex
        (vertices.getD i pos0) (vertices.getD (i + 1) pos0)

/-- Whether closing the open vertex chain (last → first) would cross an
existing edge.  From src/validation/intersection.ts
`wouldClosingCauseIntersection`. -/
def wouldClosingCauseIntersection (vertices : List Pos) : Bool :=
  if vertices.length < 3 then false
  else
    let first := vertices.getD 0 pos0
    let last := vertices.getD (vertices.length - 1) pos0
    (List.range (vertices.length - 2)).any fun i =>
      decide (1 ≤ i) &&
      segmentsIntersect last first
        (vertices.getD i pos0) (vertices.getD (i + 1) pos0)

/-- A polygon feature (src/types/features.ts LibreDrawFeature): an id, the
polygon's rings (outer ring first), and a property map. -/
structure Feature where
  id : String
  coordinates : List (List Pos)
  properties : List (String × String)
deriving DecidableEq

/-- The FeatureStore's backing state: a JavaScript Map keyed by feature id,
embedded as an insertion-ordered association list. -/
abbrev Store := List (String × Feature)

/-- Map.get: the value stored under a key, if any. -/
def getById : Store → String → Option Feature
  | [], _ => none
  | e :: rest, k => if e.1 = k then some e.2 else getById rest k

/-- Map.set: replace in place when the key is present, append otherwise. -/
def mapSet : Store → String → Feature → Store
  | [], k, v => [(k, v)]
  | e :: rest, k, v => if e.1 = k then (k, v) :: rest else e :: mapSet rest k v

/-- Map.delete: remove the entry under the key. -/
def mapDelete : Store → String → Store
  | [], _ => []
  | e :: rest, k => if e.1 = k then rest else e :: mapDelete rest k

/-- The keys of a store, in insertion order. -/
def storeKeys (s : Store) : List String := s.map Prod.fst

/-- FeatureStore.add: assign `fresh` as the id when the feature's id is empty
(the source draws it from crypto.randomUUID()), then Map.set the copy. -/
def storeAdd (s : Store) (f : Feature) (fresh : String) : Store :=
  let i := if f.id = "" then fresh else f.id
  mapSet s i { f with id := i }

/-- FeatureStore.update: silent no-op when the id is absent, else Map.set a
copy carrying the id. -/
def storeUpdate (s : Store) (i : String) (f : Feature) : Store :=
  if (getById s i).isSome then mapSet s i { f with id := i } else s

/-- FeatureStore.remove: Map.delete by id. -/
def storeRemove (s : Store) (i : String) : Store := mapDelete s i

/-- FeatureStore.getAll: snapshot of all features in insertion order. -/
def getAll (s : Store) : List Feature := s.map Prod.snd

/-- The reversible history action (src/types/features.ts): a closed sum of
CreateAction, UpdateAction and DeleteAction. -/
inductive Action
  | create (feature : Feature)
  | update (id : String) (oldFeature newFeature : Feature)
  | delete (feature : Feature)
deriving DecidableEq

/-- Action.apply: CreateAction adds its feature, UpdateAction updates to the
new snapshot, DeleteAction removes by id.  `fresh` feeds store.add's id
generator (unused whenever the feature already has an id). -/
def Action.apply (fresh : String) : Action → Store → Store
  | .create f, s => storeAdd s f fresh
  | .update i _ newFeature, s => storeUpdate s i newFeature
  | .delete f, s => storeRemove s f.id

/-- Action.revert: the inverse direction of each variant. -/
def Action.revert (fresh : String) : Action → Store → Store
  | .create f, s => storeRemove s f.id
  | .update i oldFeature _, s => storeUpdate s i oldFeature
  | .delete f, s => storeAdd s f fresh

theorem getById_mapSet_self (s : Store) (k : String) (v : Feature) :
    getById (mapSet s k v) k = some v := by
  induction s with
  | nil => simp [mapSet, getById]
  | cons e rest ih =>
    by_cases h : e.1 = k
    · simp [mapSet, getById, h]
    · simp [mapSet, getById, h, ih]

theorem mapSet_of_getById_none {s : Store} {k : String} (v : Feature)
    (h : getById s k = none) : mapSet s k v = s ++ [(k, v)] := by
  induction s with
  | nil => simp [mapSet]
  | cons e rest ih =>
    by_cases he : e.1 = k
    · simp [getById, he] at h
    · simp [getById, he] at h
      simp [mapSet, he, ih h]

theorem mapSet_self_of_getById {s : Store} {k : String} {v : Feature}
    (h : getById s k = some v) : mapSet s k v = s := by
  induction s with
  | nil => simp [getById] at h
  | cons e rest ih =>
    by_cases he : e.1 = k
    · simp [getById, he] at h
      cases e
      simp_all [mapSet]
    · simp [getById, he] at h
      simp [mapSet, he, ih h]

theorem mapSet_mapSet (s : Store) (k : String) (v w : Feature) :
    mapSet (mapSet s k v) k w = mapSet s k w := by
  induction s with
  | nil => simp [mapSet]
  | cons e rest ih =>
    by_cases he : e.1 = k
    · simp [mapSet, he]
    · simp [mapSet, he, ih]

theorem mapDelete_of_getById_none {s : Store} {k : String}
    (h : getById s k = none) : mapDelete s k = s := by
  induction s with
  | nil => simp [mapDelete]
  | cons e rest ih =>
    by_cases he : e.1 = k
    · simp [getById, he] at h
    · simp [getById, he] at h
      simp [mapDelete, he, ih h]

theorem mapDelete_append_of_none {s : Store} {k : String} (v : Feature)
    (h : getById s k = none) : mapDelete (s ++ [(k, v)]) k = s := by
  induction s with
  | nil => simp [mapDelete]
  | cons e rest ih =>
    by_cases he : e.1 = k
    · simp [getById, he] at h
    · simp [getById, he] at h
      simp [mapDelete, he, ih h]

theorem getById_eq_none_of_not_mem {s : Store} {k : String}
    (h : k ∉ storeKeys s) : getById s k = none := by
  induction s with
  | nil => simp [getById]
  | cons e rest ih =>
    rw [storeKeys, List.map_cons, List.mem_cons] at h
    push_neg at h
    simp only [getById]
    rw [if_neg (fun he => h.1 he.symm)]
    exact ih h.2

theorem getById_mapDelete_of_nodup {s : Store} {k : String}
    (h : (storeKeys s).Nodup) : getById (mapDelete s k) k = none := by
  induction s with
  | nil => simp [mapDelete, getById]
  | cons e rest ih =>
    rw [storeKeys, List.map_cons, List.nodup_cons] at h
    by_cases he : e.1 = k
    · subst he
      simp only [mapDelete, if_pos rfl]
      exact getById_eq_none_of_not_mem h.1
    · simp only [mapDelete, getById]
      rw [if_neg he, getById, if_neg he]
      exact ih h.2

/-- The HistoryManager's state (src/core/HistoryManager.ts).  Stacks grow at
the JavaScript array's end; here the list head is the newest entry, so
push = cons, pop = head, and shift (evict oldest) = dropLast. -/
structure HistoryManager where
  undoStack : List Action
  redoStack : List Action
  limit : ℕ
deriving DecidableEq

/-- A fresh HistoryManager with the given limit (constructor; default 100). -/
def hmInit (limit : ℕ) : HistoryManager := ⟨[], [], limit⟩

/-- HistoryManager.push: append, clear the redo stack, and evict the oldest
undo entry when the size exceeds the limit. -/
def hmPush (hm : HistoryManager) (a : Action) : HistoryManager :=
  let u := a :: hm.undoStack
  { undoStack := if hm.limit < u.length then u.dropLast else u
    redoStack := []
    limit := hm.limit }

/-- HistoryManager.undo: pop the newest undo entry, revert it on the store,
move it to the redo stack; false when empty. -/
def hmUndo (fresh : String) (hm : HistoryManager) (s : Store) :
    Bool × HistoryManager × Store :=
  match hm.undoStack with
  | [] => (false, hm, s)
  | a :: rest => (true, ⟨rest, a :: hm.redoStack, hm.limit⟩, a.revert fresh s)

/-- HistoryManager.redo: pop the newest redo entry, apply it on the store,
move it back to the undo stack; false when empty. -/
def hmRedo (fresh : String) (hm : HistoryManager) (s : Store) :
    Bool × HistoryManager × Store :=
  match hm.redoStack with
  | [] => (false, hm, s)
  | a :: rest => (true, ⟨a :: hm.undoStack, rest, hm.limit⟩, a.apply fresh s)

/-- HistoryManager.canUndo. -/
def hmCanUndo (hm : HistoryManager) : Bool := decide (0 < hm.undoStack.length)

/-- HistoryManager.canRedo. -/
def hmCanRedo (hm : HistoryManager) : Bool := decide (0 < hm.redoStack.length)

/-- Push a list of actions in order. -/
def hmPushAll (hm : HistoryManager) (as : List Action) : HistoryManager :=
  as.foldl hmPush hm

/-- Call undo `n` times, counting how many calls returned true. -/
def hmUndoMany (fresh : String) : ℕ → HistoryManager → Store → ℕ × HistoryManager × Store
  | 0, hm, s => (0, hm, s)
  | Nat.succ n, hm, s =>
    match hmUndo fresh hm s with
    | (true, hm1, s1) =>
      let r := hmUndoMany fresh n hm1 s1
      (r.1 + 1, r.2)
    | (false, hm1, s1) => hmUndoMany fresh n hm1 s1

theorem hmPush_limit (hm : HistoryManager) (a : Action) :
    (hmPush hm a).limit = hm.limit := rfl

theorem hmPush_length (hm : HistoryManager) (a : Action)
    (h : hm.undoStack.length ≤ hm.limit) :
    (hmPush hm a).undoStack.length = min (hm.undoStack.length + 1) hm.limit := by
  simp only [hmPush]
  split
  · rename_i hl
    simp only [List.length_cons] at hl
    rw [List.length_dropLast, List.length_cons]
    omega
  · rename_i hl
    simp only [List.length_cons] at hl
    rw [List.length_cons]
    omega

theorem hmPushAll_limit (as : List Action) (hm : HistoryManager) :
    (hmPushAll hm as).limit = hm.limit := by
  induction as generalizing hm with
  | nil => rfl
  | cons a rest ih => rw [hmPushAll, List.foldl_cons, ← hmPushAll, ih, hmPush_limit]

theorem hmPushAll_length (as : List Action) (hm : HistoryManager)
    (h : hm.undoStack.length ≤ hm.limit) :
    (hmPushAll hm as).undoStack.length = min (hm.undoStack.length + as.length) hm.limit := by
  induction as generalizing hm with
  | nil =>
    rw [hmPushAll, List.foldl_nil, List.length_nil]
    omega
  | cons a rest ih =>
    rw [hmPushAll, List.foldl_cons, ← hmPushAll]
    have h1 := hmPush_length hm a h
    have h2 : (hmPush hm a).undoStack.length ≤ (hmPush hm a).limit := by
      rw [h1, hmPush_limit]; omega
    rw [ih (hmPush hm a) h2, h1, hmPush_limit, List.length_cons]
    omega

theorem hmUndoMany_count (fresh : String) (n : ℕ) (hm : HistoryManager) (s : Store) :
    (hmUndoMany fresh n hm s).1 = min n hm.undoStack.length := by
  induction n generalizing hm s with
  | zero => simp [hmUndoMany]
  | succ n ih =>
    match hst : hm.undoStack with
    | [] =>
      rw [hmUndoMany, hmUndo, hst]
      simp only
      rw [ih, hst]
      simp
    | a :: rest =>
      rw [hmUndoMany, hmUndo, hst]
      simp only
      rw [ih]
      simp only [List.length_cons]
      omega

theorem hmUndoMany_stack (fresh : String) (n : ℕ) (hm : HistoryManager) (s : Store) :
    (hmUndoMany fresh n hm s).2.1.undoStack = hm.undoStack.drop n := by
  induction n generalizing hm s with
  | zero => simp [hmUndoMany]
  | succ n ih =>
    match hst : hm.undoStack with
    | [] =>
      rw [hmUndoMany, hmUndo, hst]
      simp only
      rw [ih, hst]
      simp
    | a :: rest =>
      rw [hmUndoMany, hmUndo, hst]
      simp only
      rw [ih]
      simp

theorem hmUndo_false_of_empty (fresh : String) (hm : HistoryManager) (s : Store)
    (h : hm.undoStack = []) : (hmUndo fresh hm s).1 = false := by
  rw [hmUndo, h]

/-- A draw-mode event observable through the event bus. -/
inductive DrawEvent
  | created (feature : Feature)
deriving DecidableEq

/-- The observable outcome of a DrawMode step: the committed vertex list
afterwards, the feature created (if any), the actions pushed to history and
the events emitted. -/
structure DrawOutcome where
  vertices : List Pos
  created : Option Feature
  pushed : List Action
  events : List DrawEvent
deriving DecidableEq

/-- DrawMode.finalizePolygon (src/modes/DrawMode.ts): guard on fewer than
3 vertices; close the ring by appending a copy of the first vertex; build a
feature with a fresh id (crypto.randomUUID(), passed in as `freshId`) and
empty properties; store it, push one CreateAction, emit one create event and
reset the vertex list. -/
def drawFinalize (vs : List Pos) (freshId : String) : DrawOutcome :=
  if vs.length < 3 then ⟨vs, none, [], []⟩
  else
    let ring := vs ++ [vs.headD pos0]
    let f : Feature := ⟨freshId, [ring], []⟩
    ⟨[], some f, [Action.create f], [DrawEvent.created f]⟩

/-- DrawMode.onDoubleClick (src/modes/DrawMode.ts): pop the last vertex only
when more than MIN_VERTICES (3) are committed, then finalize when at least 3
remain and the closing edge would not self-intersect. -/
def drawOnDoubleClick (vs : List Pos) (freshId : String) : DrawOutcome :=
  let vs1 := if 3 < vs.length then vs.dropLast else vs
  if 3 ≤ vs1.length then
    if wouldClosingCauseIntersection vs1 then ⟨vs1, none, [], []⟩
    else drawFinalize vs1 freshId
  else ⟨vs1, none, [], []⟩

/-- The modality tag on a normalized input event (src/types/input.ts). -/
inductive InputType
  | mouse
  | touch
deriving DecidableEq

/-- A normalized pointer event: geographic coordinate, screen-pixel
coordinate and modality. -/
structure PointerEvent where
  lngLat : Pos
  point : ℚ × ℚ
  inputType : InputType

/-- SelectMode's gesture state (src/modes/SelectMode.ts fields). -/
structure SelState where
  isActive : Bool
  selectedIds : List String
  dragging : Bool
  dragVertexIndex : ℕ
  dragStartFeature : Option Feature
deriving DecidableEq

/-- SelectMode.getVertices: the feature's outer ring without its closing
duplicate. -/
def getVertices (f : Feature) : List Pos := (f.coordinates.headD []).dropLast

/-- SelectMode.findNearestPoint: index of the closest point whose screen
distance from the click is within HIT_THRESHOLD_PX = 10, scanning in order
and keeping the strictly closest; none when every point misses.  The source
compares sqrt(dx²+dy²) ≤ 10; this embeds the equivalent dx²+dy² ≤ 100.
`proj` is the host's geographic→screen projection. -/
def findNearestPoint (proj : Pos → ℚ × ℚ) (points : List Pos)
    (clickPoint : ℚ × ℚ) : Option ℕ :=
  let step := fun (acc : Option (ℕ × ℚ)) (i : ℕ) =>
    let screenPt := proj (points.getD i pos0)
    let dx := clickPoint.1 - screenPt.1
    let dy := clickPoint.2 - screenPt.2
    let d2 := dx * dx + dy * dy
    if d2 ≤ 10 * 10 then
      match acc with
      | none => some (i, d2)
      | some best => if d2 < best.2 then some (i, d2) else acc
    else acc
  ((List.range points.length).foldl step none).map Prod.fst

/-- SelectMode.computeMidpoints: the midpoint of every edge. -/
def computeMidpoints (vs : List Pos) : List Pos :=
  (List.range vs.length).map fun i =>
    let a := vs.getD i pos0
    let b := vs.getD ((i + 1) % vs.length) pos0
    ((a.1 + b.1) / 2, (a.2 + b.2) / 2)

/-- SelectMode.moveVertex: replace the vertex, mirroring onto the closing
duplicate when index 0 or the last ring slot moved; the result carries the
single modified ring. -/
def moveVertex (f : Feature) (vertexIndex : ℕ) (newPos : Pos) : Feature :=
  let ring := f.coordinates.headD []
  let r1 := ring.set vertexIndex newPos
  let r2 := if vertexIndex = 0 then r1.set (r1.length - 1) newPos else r1
  let r3 := if vertexIndex = ring.length - 1 then r2.set 0 newPos else r2
  { f with coordinates := [r3] }

/-- SelectMode.insertVertex: splice a new position into the ring. -/
def insertVertex (f : Feature) (insertIndex : ℕ) (p : Pos) : Feature :=
  let ring := f.coordinates.headD []
  { f with coordinates := [ring.insertIdx insertIndex p] }

/-- SelectMode.onPointerMove (src/modes/SelectMode.ts): while dragging, move
the dragged vertex to the pointer's coordinate and store the result
unconditionally — the store always receives the candidate geometry. -/
def selOnPointerMove (st : SelState) (s : Store) (ev : PointerEvent) : Store :=
  if st.isActive = false ∨ st.dragging = false then s
  else
    match st.selectedIds.head? with
    | none => s
    | some selectedId =>
      match getById s selectedId with
      | none => s
      | some f =>
        let newPos : Pos := (ev.lngLat.1, ev.lngLat.2)
        let updatedFeature := moveVertex f st.dragVertexIndex newPos
        storeUpdate s selectedId updatedFeature

/-- The standard polygon (re)selection logic at the tail of
SelectMode.onPointerDown: scan features topmost-first with the host's
point-in-polygon test `pip`; toggle off when the hit feature is already
selected, replace the selection otherwise, clear it on a miss. -/
def selSelectionLogic (pip : Pos → Feature → Bool) (st : SelState) (s : Store)
    (ev : PointerEvent) : SelState :=
  let hitFeature := (getAll s).reverse.find? (fun f => pip ev.lngLat f)
  match hitFeature with
  | some hf =>
    if hf.id ∈ st.selectedIds then
      { st with selectedIds := st.selectedIds.erase hf.id }
    else
      { st with selectedIds := [hf.id] }
  | none => { st with selectedIds := [] }

/-- SelectMode.onPointerDown (src/modes/SelectMode.ts): with a selection,
try a vertex hit (start a vertex drag), then a midpoint hit (insert a vertex,
start dragging it, with the pre-insertion snapshot as the drag start), else
fall through to the selection logic.  `proj` and `pip` are the host's
projection and @turf point-in-polygon collaborators. -/
def selOnPointerDown (proj : Pos → ℚ × ℚ) (pip : Pos → Feature → Bool)
    (st : SelState) (s : Store) (ev : PointerEvent) : SelState × Store :=
  if st.isActive = false then (st, s)
  else
    let fallThrough := (selSelectionLogic pip st s ev, s)
    match st.selectedIds.head? with
    | none => fallThrough
    | some selectedId =>
      match getById s selectedId with
      | none => fallThrough
      | some f =>
        let vertices := getVertices f
        match findNearestPoint proj vertices ev.point with
        | some vertexIdx =>
          ({ st with
              dragging := true
              dragVertexIndex := vertexIdx
              dragStartFeature := some f }, s)
        | none =>
          let midpoints := computeMidpoints vertices
          match findNearestPoint proj midpoints ev.point with
          | some midIdx =>
            let newFeature := insertVertex f (midIdx + 1) (midpoints.getD midIdx pos0)
            ({ st with
                dragging := true
                dragVertexIndex := midIdx + 1
                dragStartFeature := some f },
              storeUpdate s selectedId newFeature)
          | none => fallThrough

/-- A raw feature as the import validators see it (src/validation/geojson.ts
works on `unknown`; this embeds the well-typed polygon-feature shape, whose
tag fields the validator still has to check). -/
structure RawFeature where
  ftype : String
  geometryType : String
  coordinates : List (List Pos)
  id : String
  properties : List (String × String)
deriving DecidableEq

/-- Exact position equality (`positionsEqual` in src/validation/geojson.ts,
which uses `===` on both components). -/
def positionsEqual (a b : Pos) : Bool := decide (a.1 = b.1) && decide (a.2 = b.2)

/-- validateCoordinate: in-bounds longitude and latitude, first error wins. -/
def validateCoordinate (p : Pos) : Option String :=
  if p.1 < -180 ∨ 180 < p.1 then
    some ("Invalid longitude: " ++ toString p.1 ++ ". Must be between -180 and 180.")
  else if p.2 < -90 ∨ 90 < p.2 then
    some ("Invalid latitude: " ++ toString p.2 ++ ". Must be between -90 and 90.")
  else none

/-- validateRing: at least 4 positions, closed (first = last), every
coordinate in bounds; errors in source order. -/
def validateRing (ring : List Pos) : Option String :=
  if ring.length < 4 then
    some ("Ring must have at least 4 positions (got " ++ toString ring.length ++
      "). A valid polygon ring requires 3 unique vertices plus a closing vertex.")
  else if positionsEqual (ring.headD pos0) (ring.getLastD pos0) = false then
    some "Ring is not closed. The first and last positions must be identical."
  else ring.findSome? validateCoordinate

/-- validateFeature: Feature tag, Polygon tag, at least one ring, then each
ring validated in order; returns the first error, none when valid. -/
def validateFeature (f : RawFeature) : Option String :=
  if f.ftype ≠ "Feature" then
    some ("Feature.type must be \"Feature\", got \"" ++ f.ftype ++ "\".")
  else if f.geometryType ≠ "Polygon" then
    some ("Feature.geometry.type must be \"Polygon\", got \"" ++ f.geometryType ++ "\".")
  else if f.coordinates.isEmpty then
    some "Polygon must have at least one ring (outer ring)."
  else f.coordinates.findSome? validateRing

/-- The validated feature as admitted to the store (the source returns the
same object, cast). -/
def toFeature (f : RawFeature) : Feature := ⟨f.id, f.coordinates, f.properties⟩

/-- validateGeoJSON's loop from a starting index: the first invalid element
aborts with its index spliced into the wrapped LibreDrawError message. -/
def validateGeoJSONFrom (i : ℕ) : List RawFeature → Option String
  | [] => none
  | f :: rest =>
    match validateFeature f with
    | some e => some ("Invalid feature at index " ++ toString i ++ ": " ++ e)
    | none => validateGeoJSONFrom (i + 1) rest

/-- validateGeoJSON on the collection's feature list. -/
def validateGeoJSONErr (fs : List RawFeature) : Option String :=
  validateGeoJSONFrom 0 fs

/-- Add a list of already-validated raw features to a store in order, feeding
the id generator by position. -/
def addAllRaw (fresh : ℕ → String) : ℕ → Store → List RawFeature → Store
  | _, s, [] => s
  | i, s, f :: rest => addAllRaw fresh (i + 1) (storeAdd s (toFeature f) (fresh i)) rest

/-- LibreDraw.setFeatures: validate the whole collection first (any failure
throws before touching the store), then clear and re-add every feature. -/
def setFeatures (fresh : ℕ → String) (s : Store) (fs : List RawFeature) :
    Option String × Store :=
  match validateGeoJSONErr fs with
  | some e => (some e, s)
  | none => (none, addAllRaw fresh 0 [] fs)

/-- LibreDraw.addFeatures' loop: validate and add one feature at a time; a
validation error propagates immediately, leaving every earlier addition in
the store. -/
def addFeaturesFrom (fresh : ℕ → String) : ℕ → Store → List RawFeature →
    Option String × Store
  | _, s, [] => (none, s)
  | i, s, f :: rest =>
    match validateFeature f with
    | some e => (some e, s)
    | none => addFeaturesFrom fresh (i + 1) (storeAdd s (toFeature f) (fresh i)) rest

/-- LibreDraw.addFeatures. -/
def addFeatures (fresh : ℕ → String) (s : Store) (fs : List RawFeature) :
    Option String × Store :=
  addFeaturesFrom fresh 0 s fs

/-! Concrete fixtures used across the claims: the unit-10 square feature of
the repository's test suite and the 10-pixels-per-degree projection its mock
host uses. -/

/-- The square test ring (0,0),(10,0),(10,10),(0,10) with closing duplicate. -/
def sqRing : List Pos := [(0, 0), (10, 0), (10, 10), (0, 10), (0, 0)]

/-- The square test feature under id "f1". -/
def sqFeature : Feature := ⟨"f1", [sqRing], []⟩

/-- A store holding only the square feature. -/
def sqStore : Store := [("f1", sqFeature)]

/-- The mock projection of the test suite: 10 screen pixels per degree. -/
def projTimes10 : Pos → ℚ × ℚ := fun p => (p.1 * 10, p.2 * 10)

/-- Drag state for C1: square selected, vertex 0 being dragged. -/
def dragState1 : SelState := ⟨true, ["f1"], true, 0, some sqFeature⟩

/-- Pointer-move event for C1: pointer at geographic (5,12). -/
def dragEv1 : PointerEvent := ⟨(5, 12), (50, 120), .mouse⟩

/-- Shared simp list that evaluates the geometry predicates. -/
theorem feature_eta (f : Feature) : ({ f with id := f.id } : Feature) = f := rfl

/-- C1: the claim says every pointer-move candidate during a SelectMode drag
is validated with hasRingSelfIntersection and discarded when it
self-intersects.  The source's onPointerMove stores the candidate
unconditionally: dragging the square's vertex 0 to (5,12) replaces the stored
geometry with a ring for which hasRingSelfIntersection is true, violating the
claimed invariant (the repository's own SelectMode tests assert this drag is
rejected). -/
theorem c1_drag_stores_self_intersecting_ring :
    (getById (selOnPointerMove dragState1 sqStore dragEv1) "f1").map
      (fun f => hasRingSelfIntersection (f.coordinates.headD [])) = some true ∧
    selOnPointerMove dragState1 sqStore dragEv1 ≠ sqStore := by
  constructor
  · norm_num [selOnPointerMove, dragState1, dragEv1, sqStore, sqFeature, sqRing,
      moveVertex, storeUpdate, getById, mapSet, hasRingSelfIntersection,
      segmentsIntersect, orientation, posEqual, onSegment, qabs, qmin, qmax, eps,
      pos0, List.range_succ]
  · decide

/-- C2 counterexample: the claim quantifies over every store state.  For a
CreateAction on the empty store, revert is a no-op (nothing to remove) and
apply then adds the feature, so apply (revert ∅) = {feature} ≠ ∅. -/
theorem c2_counterexample_inverse_law :
    Action.apply "x" (.create sqFeature)
      (Action.revert "x" (.create sqFeature) []) ≠ ([] : Store) := by
  decide

/-- C2 amended: apply and revert are mutual inverses on store states
consistent with the action — Create round-trips when the id is absent,
Update round-trips when the store holds the matching snapshot under the id,
Delete round-trips when the id is absent after removal — and double-apply
equals single-apply (for Create given a nonempty id, for Delete given the
store's ids are distinct, as JavaScript Map guarantees). -/
theorem c2_inverse_laws_amended (s : Store) (f oldFeature newFeature : Feature)
    (i fresh : String) :
    (f.id ≠ "" → getById s f.id = none →
      Action.revert fresh (.create f) (Action.apply fresh (.create f) s) = s) ∧
    (f.id ≠ "" → getById s f.id = none →
      Action.apply fresh (.create f)
        (Action.revert fresh (.create f) (Action.apply fresh (.create f) s)) =
        Action.apply fresh (.create f) s) ∧
    (getById s i = some { oldFeature with id := i } →
      Action.revert fresh (.update i oldFeature newFeature)
        (Action.apply fresh (.update i oldFeature newFeature) s) = s) ∧
    (getById s i = some { newFeature with id := i } →
      Action.apply fresh (.update i oldFeature newFeature)
        (Action.revert fresh (.update i oldFeature newFeature) s) = s) ∧
    (f.id ≠ "" → getById s f.id = none →
      Action.apply fresh (.delete f) (Action.revert fresh (.delete f) s) = s) ∧
    (f.id ≠ "" → getById s f.id = none →
      Action.revert fresh (.delete f)
        (Action.apply fresh (.delete f) (Action.revert fresh (.delete f) s)) =
        Action.revert fresh (.delete f) s) ∧
    (f.id ≠ "" →
      Action.apply fresh (.create f) (Action.apply fresh (.create f) s) =
        Action.apply fresh (.create f) s) ∧
    (Action.apply fresh (.update i oldFeature newFeature)
        (Action.apply fresh (.update i oldFeature newFeature) s) =
      Action.apply fresh (.update i oldFeature newFeature) s) ∧
    ((storeKeys s).Nodup →
      Action.apply fresh (.delete f) (Action.apply fresh (.delete f) s) =
        Action.apply fresh (.delete f) s) := by
  have hadd : f.id ≠ "" → ∀ t : Store, storeAdd t f fresh = mapSet t f.id f := by
    intro hid t
    rw [storeAdd]
    simp only [if_neg hid, feature_eta]
  refine ⟨?_, ?_, ?_, ?_, ?_, ?_, ?_, ?_, ?_⟩
  · intro hid h
    simp only [Action.apply, Action.revert, hadd hid, storeRemove]
    rw [mapSet_of_getById_none f h, mapDelete_append_of_none f h]
  · intro hid h
    have h1 : Action.revert fresh (.create f) (Action.apply fresh (.create f) s) = s := by
      simp only [Action.apply, Action.revert, hadd hid, storeRemove]
      rw [mapSet_of_getById_none f h, mapDelete_append_of_none f h]
    rw [h1]
  · intro h
    simp only [Action.apply, Action.revert, storeUpdate, h, Option.isSome_some,
      if_pos]
    rw [if_pos (by rw [getById_mapSet_self]; rfl)]
    rw [mapSet_mapSet, mapSet_self_of_getById h]
  · intro h
    simp only [Action.apply, Action.revert, storeUpdate, h, Option.isSome_some,
      if_pos]
    rw [if_pos (by rw [getById_mapSet_self]; rfl)]
    rw [mapSet_mapSet, mapSet_self_of_getById h]
  · intro hid h
    simp only [Action.apply, Action.revert, hadd hid, storeRemove]
    rw [mapSet_of_getById_none f h, mapDelete_append_of_none f h]
  · intro hid h
    have h1 : Action.apply fresh (.delete f) (Action.revert fresh (.delete f) s) = s := by
      simp only [Action.apply, Action.revert, hadd hid, storeRemove]
      rw [mapSet_of_getById_none f h, mapDelete_append_of_none f h]
    rw [h1]
  · intro hid
    simp only [Action.apply, hadd hid]
    exact mapSet_mapSet s f.id f f
  · by_cases h : (getById s i).isSome
    · simp only [Action.apply, storeUpdate, if_pos h]
      rw [if_pos (by rw [getById_mapSet_self]; rfl)]
      exact mapSet_mapSet s i _ _
    · simp only [Action.apply, storeUpdate, if_neg h, if_neg h]
  · intro hnd
    simp only [Action.apply, storeRemove]
    rw [mapDelete_of_getById_none (getById_mapDelete_of_nodup hnd)]

/-- Witness for the C2 amended theorem at concrete inputs: the Create
round-trip on the empty store and Update idempotence on the square store. -/
theorem c2_inverse_laws_amended_witness :
    Action.revert "x" (.create sqFeature)
      (Action.apply "x" (.create sqFeature) []) = ([] : Store) ∧
    Action.apply "x" (.update "f1" sqFeature sqFeature)
        (Action.apply "x" (.update "f1" sqFeature sqFeature) sqStore) =
      Action.apply "x" (.update "f1" sqFeature sqFeature) sqStore := by
  refine ⟨?_, ?_⟩
  · exact (c2_inverse_laws_amended [] sqFeature sqFeature sqFeature "f1" "x").1
      (by decide) (by decide)
  · exact (c2_inverse_laws_amended sqStore sqFeature sqFeature sqFeature "f1"
      "x").2.2.2.2.2.2.2.1

theorem hmUndo_parts_of_ne_nil (fresh : String) (hm : HistoryManager) (s : Store)
    (h : hm.undoStack ≠ []) :
    (hmUndo fresh hm s).1 = true ∧ (hmUndo fresh hm s).2.1.redoStack ≠ [] := by
  match hst : hm.undoStack with
  | [] => exact absurd hst h
  | a :: rest =>
    rw [hmUndo, hst]
    exact ⟨rfl, by simp⟩

theorem hmRedo_true_of_ne_nil (fresh : String) (hm : HistoryManager) (s : Store)
    (h : hm.redoStack ≠ []) : (hmRedo fresh hm s).1 = true := by
  match hst : hm.redoStack with
  | [] => exact absurd hst h
  | a :: rest => rw [hmRedo, hst]

theorem hmPush_stack_ne_nil (hm : HistoryManager) (a : Action)
    (hl : 1 ≤ hm.limit) : (hmPush hm a).undoStack ≠ [] := by
  simp only [hmPush]
  split
  · rename_i h
    match hst : hm.undoStack with
    | [] =>
      rw [hst, List.length_cons, List.length_nil] at h
      omega
    | b :: rest =>
      apply List.ne_nil_of_length_pos
      rw [List.length_dropLast, List.length_cons, List.length_cons]
      omega
  · simp

/-- C5: the undo stack is bounded by the capacity via evict-oldest: pushing
capacity + k actions (k ≥ 1, capacity ≥ 1) onto a fresh HistoryManager makes
the first `capacity` undo calls all return true and the next one return
false. -/
theorem c5_history_bound (N k : ℕ) (as : List Action) (s : Store) (fresh : String)
    (hN : 1 ≤ N) (hk : 1 ≤ k) (hlen : as.length = N + k) :
    (hmUndoMany fresh N (hmPushAll (hmInit N) as) s).1 = N ∧
    (hmUndo fresh (hmUndoMany fresh N (hmPushAll (hmInit N) as) s).2.1
      (hmUndoMany fresh N (hmPushAll (hmInit N) as) s).2.2).1 = false := by
  have hlen0 : (hmInit N).undoStack.length ≤ (hmInit N).limit := by
    simp [hmInit]
  have hstack := hmPushAll_length as (hmInit N) hlen0
  rw [hlen] at hstack
  have hstackN : (hmPushAll (hmInit N) as).undoStack.length = N := by
    rw [hstack]
    simp only [hmInit, List.length_nil, Nat.zero_add]
    omega
  constructor
  · rw [hmUndoMany_count, hstackN]
    omega
  · apply hmUndo_false_of_empty
    rw [hmUndoMany_stack]
    exact List.drop_eq_nil_of_le (by omega)

/-- Witness for C5 at capacity 1, k = 1: two pushes, the first undo succeeds
and the second fails. -/
theorem c5_history_bound_witness :
    (hmUndoMany "x" 1
      (hmPushAll (hmInit 1) [Action.create sqFeature, Action.create sqFeature]) []).1 = 1 ∧
    (hmUndo "x" (hmUndoMany "x" 1
        (hmPushAll (hmInit 1) [Action.create sqFeature, Action.create sqFeature]) []).2.1
      (hmUndoMany "x" 1
        (hmPushAll (hmInit 1) [Action.create sqFeature, Action.create sqFeature]) []).2.2).1 =
      false :=
  c5_history_bound 1 1 [Action.create sqFeature, Action.create sqFeature] [] "x"
    (by decide) (by decide) (by decide)

/-- C6: push clears the redo stack: undoing a non-empty history succeeds and
a redo then succeeds; but pushing a new action after the undo empties the
redo stack (canRedo false, redo false), until a further undo (possible
whenever the capacity is at least 1) makes redo succeed again. -/
theorem c6_redo_invalidation (hm : HistoryManager) (s s2 s3 : Store) (a : Action)
    (fresh : String) (h : hm.undoStack ≠ []) :
    (hmUndo fresh hm s).1 = true ∧
    (hmRedo fresh (hmUndo fresh hm s).2.1 (hmUndo fresh hm s).2.2).1 = true ∧
    (hmPush (hmUndo fresh hm s).2.1 a).redoStack = [] ∧
    hmCanRedo (hmPush (hmUndo fresh hm s).2.1 a) = false ∧
    (hmRedo fresh (hmPush (hmUndo fresh hm s).2.1 a) s2).1 = false ∧
    (1 ≤ hm.limit →
      (hmUndo fresh (hmPush (hmUndo fresh hm s).2.1 a) s2).1 = true ∧
      (hmRedo fresh
        (hmUndo fresh (hmPush (hmUndo fresh hm s).2.1 a) s2).2.1 s3).1 = true) := by
  obtain ⟨hu, hr⟩ := hmUndo_parts_of_ne_nil fresh hm s h
  refine ⟨hu, hmRedo_true_of_ne_nil _ _ _ hr, rfl, by simp [hmCanRedo, hmPush], ?_, ?_⟩
  · simp [hmRedo, hmPush]
  · intro hl
    have hlim : (hmUndo fresh hm s).2.1.limit = hm.limit := by
      match hst : hm.undoStack with
      | [] => exact absurd hst h
      | b :: rest => rw [hmUndo, hst]
    have hne := hmPush_stack_ne_nil (hmUndo fresh hm s).2.1 a (by omega)
    obtain ⟨hu2, hr2⟩ := hmUndo_parts_of_ne_nil fresh _ s2 hne
    exact ⟨hu2, hmRedo_true_of_ne_nil _ _ _ hr2⟩

/-- Witness for C6 with a one-element history of capacity 5. -/
theorem c6_redo_invalidation_witness :
    (hmUndo "x" ⟨[Action.create sqFeature], [], 5⟩ sqStore).1 = true ∧
    (hmRedo "x" (hmUndo "x" ⟨[Action.create sqFeature], [], 5⟩ sqStore).2.1
      (hmUndo "x" ⟨[Action.create sqFeature], [], 5⟩ sqStore).2.2).1 = true := by
  have h := c6_redo_invalidation ⟨[Action.create sqFeature], [], 5⟩ sqStore [] []
    (Action.create sqFeature) "x" (by decide)
  exact ⟨h.1, h.2.1⟩

/-- An operation issued against the HistoryManager. -/
inductive HMOp
  | push (a : Action)
  | undo
  | redo

/-- Run a sequence of push/undo/redo operations against a HistoryManager and
a store. -/
def hmRun (fresh : String) : List HMOp → HistoryManager × Store → HistoryManager × Store
  | [], p => p
  | op :: rest, (hm, s) =>
    match op with
    | .push a => hmRun fresh rest (hmPush hm a, s)
    | .undo => hmRun fresh rest ((hmUndo fresh hm s).2.1, (hmUndo fresh hm s).2.2)
    | .redo => hmRun fresh rest ((hmRedo fresh hm s).2.1, (hmRedo fresh hm s).2.2)

theorem hmRun_zero_limit_inv (fresh : String) (ops : List HMOp) :
    ∀ (hm : HistoryManager) (s : Store), hm.undoStack = [] → hm.redoStack = [] →
    hm.limit = 0 →
    (hmRun fresh ops (hm, s)).1.undoStack = [] ∧
    (hmRun fresh ops (hm, s)).1.redoStack = [] ∧
    (hmRun fresh ops (hm, s)).1.limit = 0 := by
  induction ops with
  | nil => exact fun hm s h1 h2 h3 => ⟨h1, h2, h3⟩
  | cons op rest ih =>
    intro hm s h1 h2 h3
    match op with
    | .push a =>
      rw [hmRun]
      apply ih
      · simp [hmPush, h1, h3]
      · rfl
      · exact h3
    | .undo =>
      rw [hmRun]
      apply ih
      · rw [hmUndo, h1]
        exact h1
      · rw [hmUndo, h1]
        exact h2
      · rw [hmUndo, h1]
        exact h3
    | .redo =>
      rw [hmRun]
      apply ih
      · rw [hmRedo, h2]
        exact h1
      · rw [hmRedo, h2]
        exact h2
      · rw [hmRedo, h2]
        exact h3

/-- C10: with capacity 0 every push is immediately evicted, so after any
sequence of push/undo/redo operations both stacks are empty, canUndo and
canRedo report false, and undo/redo return false. -/
theorem c10_zero_capacity (fresh : String) (ops : List HMOp) (s s2 : Store) :
    (hmRun fresh ops (hmInit 0, s)).1.undoStack = [] ∧
    (hmRun fresh ops (hmInit 0, s)).1.redoStack = [] ∧
    hmCanUndo (hmRun fresh ops (hmInit 0, s)).1 = false ∧
    hmCanRedo (hmRun fresh ops (hmInit 0, s)).1 = false ∧
    (hmUndo fresh (hmRun fresh ops (hmInit 0, s)).1 s2).1 = false ∧
    (hmRedo fresh (hmRun fresh ops (hmInit 0, s)).1 s2).1 = false := by
  obtain ⟨h1, h2, _⟩ := hmRun_zero_limit_inv fresh ops (hmInit 0) s rfl rfl rfl
  refine ⟨h1, h2, ?_, ?_, ?_, ?_⟩
  · simp [hmCanUndo, h1]
  · simp [hmCanRedo, h2]
  · exact hmUndo_false_of_empty fresh _ s2 h1
  · rw [hmRedo, h2]

/-- C7: finalizePolygon has no effect with fewer than 3 committed vertices;
otherwise it yields exactly one created feature whose single ring is the
vertex list closed with a copy of its first vertex (length ≥ 4, first =
last), carrying the fresh id and empty properties, pushes exactly one
CreateAction, emits exactly one creation event and resets the vertex list. -/
theorem c7_finalize_ring_valid (vs : List Pos) (freshId : String) :
    (vs.length < 3 → drawFinalize vs freshId = ⟨vs, none, [], []⟩) ∧
    (3 ≤ vs.length →
      drawFinalize vs freshId =
        ⟨[], some ⟨freshId, [vs ++ [vs.headD pos0]], []⟩,
          [Action.create ⟨freshId, [vs ++ [vs.headD pos0]], []⟩],
          [DrawEvent.created ⟨freshId, [vs ++ [vs.headD pos0]], []⟩]⟩ ∧
      4 ≤ (vs ++ [vs.headD pos0]).length ∧
      (vs ++ [vs.headD pos0]).head? = (vs ++ [vs.headD pos0]).getLast?) := by
  constructor
  · intro h
    rw [drawFinalize, if_pos h]
  · intro h
    refine ⟨?_, ?_, ?_⟩
    · rw [drawFinalize, if_neg (by omega)]
    · rw [List.length_append, List.length_cons, List.length_nil]
      omega
    · match vs, h with
      | v :: t, _ =>
        rw [List.getLast?_concat]
        rfl

/-- Witness for C7: a two-vertex list is left untouched, and a triangle
finalizes into the closed 4-position ring. -/
theorem c7_finalize_ring_valid_witness :
    drawFinalize [((0 : ℚ), (0 : ℚ)), (10, 0)] "a" =
      ⟨[((0 : ℚ), (0 : ℚ)), (10, 0)], none, [], []⟩ ∧
    drawFinalize [((0 : ℚ), (0 : ℚ)), (10, 0), (10, 10)] "a" =
      ⟨[], some ⟨"a", [[((0 : ℚ), (0 : ℚ)), (10, 0), (10, 10), (0, 0)]], []⟩,
        [Action.create ⟨"a", [[((0 : ℚ), (0 : ℚ)), (10, 0), (10, 10), (0, 0)]], []⟩],
        [DrawEvent.created ⟨"a", [[((0 : ℚ), (0 : ℚ)), (10, 0), (10, 10), (0, 0)]], []⟩]⟩ :=
  ⟨(c7_finalize_ring_valid [((0 : ℚ), (0 : ℚ)), (10, 0)] "a").1 (by decide),
    ((c7_finalize_ring_valid [((0 : ℚ), (0 : ℚ)), (10, 0), (10, 10)] "a").2 (by decide)).1⟩

/-- The triangle committed-vertex list used for the C8 boundary case. -/
def triVs : List Pos := [(0, 0), (10, 0), (10, 10)]

/-- C8 counterexample: the claim says exactly one vertex is discarded for
every vertex count; at exactly 3 committed vertices that would leave 2 and
finalization would have to fail, but onDoubleClick pops only when more than 3
vertices exist, so here it discards nothing and creates a feature from all
three original vertices. -/
theorem c8_counterexample_three_vertices :
    (drawOnDoubleClick triVs "fid").created =
      some ⟨"fid", [triVs ++ [(0, 0)]], []⟩ := by
  norm_num [drawOnDoubleClick, drawFinalize, wouldClosingCauseIntersection,
    segmentsIntersect, orientation, posEqual, onSegment, qabs, qmin, qmax, eps,
    pos0, triVs, List.range_succ]

/-- C8 amended: on double-click exactly one vertex (the trailing one) is
discarded only when more than 3 vertices are committed — with 3 or fewer,
none is discarded — and finalization is then attempted under the same
at-least-3-vertices and non-intersecting-closure rule as single-click
closing. -/
theorem c8_double_click_amended (vs : List Pos) (freshId : String) :
    (3 < vs.length →
      drawOnDoubleClick vs freshId =
        (if wouldClosingCauseIntersection vs.dropLast then
          ⟨vs.dropLast, none, [], []⟩
        else drawFinalize vs.dropLast freshId) ∧
      vs.dropLast.length = vs.length - 1) ∧
    (vs.length = 3 →
      drawOnDoubleClick vs freshId =
        (if wouldClosingCauseIntersection vs then ⟨vs, none, [], []⟩
         else drawFinalize vs freshId)) ∧
    (vs.length < 3 → drawOnDoubleClick vs freshId = ⟨vs, none, [], []⟩) := by
  refine ⟨?_, ?_, ?_⟩
  · intro h
    constructor
    · rw [drawOnDoubleClick]
      simp only [if_pos h]
      rw [if_pos (by rw [List.length_dropLast]; omega)]
    · rw [List.length_dropLast]
  · intro h
    rw [drawOnDoubleClick]
    simp only [if_neg (by omega : ¬3 < vs.length)]
    rw [if_pos (by omega)]
  · intro h
    rw [drawOnDoubleClick]
    simp only [if_neg (by omega : ¬3 < vs.length)]
    rw [if_neg (by omega)]

/-- Witness for C8 amended: with four committed vertices the trailing one is
discarded and the triangle closes. -/
theorem c8_double_click_amended_witness :
    drawOnDoubleClick [((0 : ℚ), (0 : ℚ)), (10, 0), (10, 10), (5, 5)] "fid" =
      (if wouldClosingCauseIntersection
          ([((0 : ℚ), (0 : ℚ)), (10, 0), (10, 10), (5, 5)] : List Pos).dropLast then
        ⟨([((0 : ℚ), (0 : ℚ)), (10, 0), (10, 10), (5, 5)] : List Pos).dropLast, none, [], []⟩
      else drawFinalize
        ([((0 : ℚ), (0 : ℚ)), (10, 0), (10, 10), (5, 5)] : List Pos).dropLast "fid") ∧
    ([((0 : ℚ), (0 : ℚ)), (10, 0), (10, 10), (5, 5)] : List Pos).dropLast.length = 3 :=
  ((c8_double_click_amended [((0 : ℚ), (0 : ℚ)), (10, 0), (10, 10), (5, 5)] "fid").1
    (by decide))

/-- Select-mode state for C3: square selected, no drag in progress. -/
def selSt1 : SelState := ⟨true, ["f1"], false, 0, none⟩

/-- Pointer-down event for C3: geographic (5,5), screen (50,50) — inside the
square's body, away from every vertex and midpoint handle. -/
def bodyEv : PointerEvent := ⟨(5, 5), (50, 50), .mouse⟩

/-- C3: the claim says a pointer-down inside the selected polygon's body
starts a whole-polygon translate.  The source's onPointerDown has no such
branch: after the vertex and midpoint hit tests miss, it falls through to the
selection toggle, which deselects the already-selected feature and starts no
drag (the repository's own SelectMode tests assert that this press starts a
polygon drag instead).  `pip` is the host's point-in-polygon collaborator,
assumed to report the click point inside every feature — only its answer on
the square is ever consulted here. -/
theorem c3_body_press_deselects (pip : Pos → Feature → Bool)
    (hpip : ∀ f, pip (5, 5) f = true) :
    (selOnPointerDown projTimes10 pip selSt1 sqStore bodyEv).1.selectedIds = [] ∧
    (selOnPointerDown projTimes10 pip selSt1 sqStore bodyEv).1.dragging = false ∧
    (selOnPointerDown projTimes10 pip selSt1 sqStore bodyEv).2 = sqStore := by
  refine ⟨?_, ?_, ?_⟩ <;>
    norm_num [selOnPointerDown, selSelectionLogic, selSt1, bodyEv, sqStore,
      sqFeature, sqRing, getVertices, findNearestPoint, computeMidpoints,
      projTimes10, getById, getAll, pos0, hpip, List.range_succ]

/-- Witness for C3 with a point-in-polygon collaborator that reports every
point inside. -/
theorem c3_body_press_deselects_witness :
    (selOnPointerDown projTimes10 (fun _ _ => true) selSt1 sqStore bodyEv).1.selectedIds =
      [] ∧
    (selOnPointerDown projTimes10 (fun _ _ => true) selSt1 sqStore bodyEv).1.dragging =
      false ∧
    (selOnPointerDown projTimes10 (fun _ _ => true) selSt1 sqStore bodyEv).2 = sqStore :=
  c3_body_press_deselects (fun _ _ => true) (fun _ => rfl)

/-- Modelled from the spec: the per-modality hit threshold the specification
describes (10px for mouse, 24px for touch).  src/modes/SelectMode.ts has no
such definition — it declares the single constant HIT_THRESHOLD_PX = 10 and
its findNearestPoint never reads the event's input modality. -/
def specHitThresholdPx : InputType → ℚ
  | .mouse => 10
  | .touch => 24

/-- Modelled from the spec: findNearestPoint as the specification describes
it, with the threshold chosen by input modality. -/
def specFindNearestPoint (proj : Pos → ℚ × ℚ) (points : List Pos)
    (clickPoint : ℚ × ℚ) (it : InputType) : Option ℕ :=
  let t := specHitThresholdPx it
  let step := fun (acc : Option (ℕ × ℚ)) (i : ℕ) =>
    let screenPt := proj (points.getD i pos0)
    let dx := clickPoint.1 - screenPt.1
    let dy := clickPoint.2 - screenPt.2
    let d2 := dx * dx + dy * dy
    if d2 ≤ t * t then
      match acc with
      | none => some (i, d2)
      | some best => if d2 < best.2 then some (i, d2) else acc
    else acc
  ((List.range points.length).foldl step none).map Prod.fst

/-- C9: the claim says a touch hit counts within 24px.  The source's
findNearestPoint applies the 10px constant to every modality: a touch press
23px from the vertex misses in the code, while the spec-modelled
per-modality test hits. -/
theorem c9_touch_threshold_diverges :
    findNearestPoint projTimes10 [((0 : ℚ), (0 : ℚ))] (23, 0) = none ∧
    specFindNearestPoint projTimes10 [((0 : ℚ), (0 : ℚ))] (23, 0) .touch = some 0 ∧
    findNearestPoint projTimes10 [((0 : ℚ), (0 : ℚ))] (9, 0) = some 0 := by
  refine ⟨?_, ?_, ?_⟩ <;>
    norm_num [findNearestPoint, specFindNearestPoint, specHitThresholdPx,
      projTimes10, pos0, List.range_succ]

/-- A valid raw square feature for the import claims. -/
def goodRaw : RawFeature :=
  ⟨"Feature", "Polygon", [[(0, 0), (10, 0), (10, 10), (0, 0)]], "g", []⟩

/-- An invalid raw feature (3-position ring) for the import claims. -/
def badRaw : RawFeature :=
  ⟨"Feature", "Polygon", [[(0, 0), (10, 0), (0, 0)]], "b", []⟩

/-- A constant id generator for the import claims. -/
def freshU : ℕ → String := fun _ => "u"

/-- C4 counterexample: addFeatures on the batch [valid, invalid] raises (its
result carries an error) yet the store is not left unchanged — the valid
first feature was admitted before the error fired, so the additive entry
point is not all-or-nothing. -/
theorem c4_counterexample_partial_admission :
    (addFeatures freshU [] [goodRaw, badRaw]).1.isSome = true ∧
    (addFeatures freshU [] [goodRaw, badRaw]).2 ≠ [] := by
  decide

theorem validateGeoJSONFrom_some (fs : List RawFeature) :
    ∀ (k i : ℕ) (f : RawFeature) (e : String), fs[i]? = some f →
    validateFeature f = some e →
    (∀ j, j < i → ∀ g, fs[j]? = some g → validateFeature g = none) →
    validateGeoJSONFrom k fs =
      some ("Invalid feature at index " ++ toString (k + i) ++ ": " ++ e) := by
  induction fs with
  | nil => intro k i f e hi; simp at hi
  | cons a rest ih =>
    intro k i f e hi hf hprev
    match i with
    | 0 =>
      rw [List.getElem?_cons_zero] at hi
      cases hi
      rw [validateGeoJSONFrom, hf]
      simp
    | Nat.succ i2 =>
      rw [List.getElem?_cons_succ] at hi
      have ha : validateFeature a = none :=
        hprev 0 (by omega) a List.getElem?_cons_zero
      rw [validateGeoJSONFrom, ha]
      have hrec := ih (k + 1) i2 f e hi hf
        (fun j hj g hg => hprev (j + 1) (by omega) g
          (by rw [List.getElem?_cons_succ]; exact hg))
      rw [hrec]
      have : k + 1 + i2 = k + (i2 + 1) := by omega
      rw [this]

theorem addFeaturesFrom_first_invalid (fresh : ℕ → String) (good : List RawFeature) :
    ∀ (i0 : ℕ) (s : Store) (bad : RawFeature) (rest : List RawFeature) (e : String),
    (∀ f ∈ good, validateFeature f = none) → validateFeature bad = some e →
    addFeaturesFrom fresh i0 s (good ++ bad :: rest) = (some e, addAllRaw fresh i0 s good) := by
  induction good with
  | nil =>
    intro i0 s bad rest e _ hb
    rw [List.nil_append, addFeaturesFrom, hb, addAllRaw]
  | cons g t ih =>
    intro i0 s bad rest e hg hb
    rw [List.cons_append, addFeaturesFrom, hg g (List.mem_cons_self g t), addAllRaw]
    exact ih (i0 + 1) (storeAdd s (toFeature g) (fresh i0)) bad rest e
      (fun f hf => hg f (List.mem_cons_of_mem g hf)) hb

theorem addFeaturesFrom_all_valid (fresh : ℕ → String) (fs : List RawFeature) :
    ∀ (i0 : ℕ) (s : Store), (∀ f ∈ fs, validateFeature f = none) →
    addFeaturesFrom fresh i0 s fs = (none, addAllRaw fresh i0 s fs) := by
  induction fs with
  | nil => intro i0 s _; rw [addFeaturesFrom, addAllRaw]
  | cons g t ih =>
    intro i0 s hg
    rw [addFeaturesFrom, hg g (List.mem_cons_self g t), addAllRaw]
    exact ih (i0 + 1) (storeAdd s (toFeature g) (fresh i0))
      (fun f hf => hg f (List.mem_cons_of_mem g hf))

/-- C4 amended: the replace-all entry point (setFeatures) is all-or-nothing —
validateGeoJSON checks the whole collection before any admission, its error
names the first failing element's index, and on error the store is
unchanged.  The additive entry point (addFeatures) validates element by
element: it raises the first element's unwrapped validation error but has
already admitted every preceding valid element, and admits everything when
the whole batch is valid. -/
theorem c4_import_amended (fresh : ℕ → String) (s : Store)
    (fs good rest : List RawFeature) (bad f : RawFeature) (i i0 : ℕ) (e : String) :
    ((validateGeoJSONErr fs).isSome →
      setFeatures fresh s fs = (validateGeoJSONErr fs, s)) ∧
    (fs[i]? = some f → validateFeature f = some e →
      (∀ j, j < i → ∀ g, fs[j]? = some g → validateFeature g = none) →
      validateGeoJSONErr fs =
        some ("Invalid feature at index " ++ toString i ++ ": " ++ e)) ∧
    ((∀ g ∈ good, validateFeature g = none) → validateFeature bad = some e →
      addFeaturesFrom fresh i0 s (good ++ bad :: rest) =
        (some e, addAllRaw fresh i0 s good)) ∧
    ((∀ g ∈ fs, validateFeature g = none) →
      addFeatures fresh s fs = (none, addAllRaw fresh 0 s fs)) := by
  refine ⟨?_, ?_, ?_, ?_⟩
  · intro h
    match hv : validateGeoJSONErr fs with
    | none => rw [hv] at h; simp at h
    | some e2 => simp only [setFeatures, hv]
  · intro hi hf hprev
    have := validateGeoJSONFrom_some fs 0 i f e hi hf hprev
    rw [validateGeoJSONErr, this, Nat.zero_add]
  · exact fun hg hb => addFeaturesFrom_first_invalid fresh good i0 s bad rest e hg hb
  · exact fun hg => addFeaturesFrom_all_valid fresh fs 0 s hg

/-- Witness for C4 amended: on the concrete batch [valid, invalid],
setFeatures leaves the empty store unchanged and reports the wrapped error,
while addFeatures admits the valid feature and reports the raw ring error. -/
theorem c4_import_amended_witness :
    setFeatures freshU [] [goodRaw, badRaw] =
      (validateGeoJSONErr [goodRaw, badRaw], []) ∧
    addFeaturesFrom freshU 0 [] ([goodRaw] ++ badRaw :: []) =
      (some ("Ring must have at least 4 positions (got " ++ toString 3 ++
          "). A valid polygon ring requires 3 unique vertices plus a closing vertex."),
        addAllRaw freshU 0 [] [goodRaw]) := by
  refine ⟨?_, ?_⟩
  · exact (c4_import_amended freshU [] [goodRaw, badRaw] [] [] badRaw badRaw 0 0
      "").1 (by decide)
  · exact (c4_import_amended freshU [] [] [goodRaw] [] badRaw badRaw 0 0
      ("Ring must have at least 4 positions (got " ++ toString 3 ++
        "). A valid polygon ring requires 3 unique vertices plus a closing vertex.")).2.2.1
      (by decide) (by decide)

end LibreDraw
